import Mathlib

/-!
Verification of the Issue_Analyzer repository's analysis pipeline.

Shallow embedding of the repository's Python sources:
  * `code_analyzer.py`  (class `StaticAnalyzer` and the `TreeSitterAnalyzer`
    basic fallback analysis it uses),
  * `gemini_analyzer.py` (class `GeminiAnalyzer`; network / subprocess
    backends are modelled as oracle functions, everything deterministic is
    embedded faithfully),
  * `pipeline.py` (class `IssueAnalyzerPipeline`),
  * `github_parser.py` (`extract_code_files`; the filesystem is modelled as
    a list of entries),
  * `config.py` (the constants used by the above).

Python strings are modelled as Lean `String`s, and every string operation
used by the source (`split`, `lower`, `strip`, `startswith`, `in`,
`replace`, `len`) is implemented here by structural recursion over the
underlying character list so that all definitions evaluate by kernel
reduction.  `str.lower` and `str.strip` are modelled on their ASCII
behaviour, which is all the source's patterns exercise.  Python machine
floats are modelled as exact rationals, and `round(x, 1)` as
round-half-to-even at one decimal, Python's rounding mode.
-/

namespace IssueAnalyzer

/-! ## String primitives (models of the Python `str` operations) -/

/-- ASCII model of `str.lower` on one character. -/
def lowerChar (c : Char) : Char :=
  if 'A' ≤ c ∧ c ≤ 'Z' then Char.ofNat (c.toNat + 32) else c

/-- Model of `str.lower` (ASCII). -/
def strLower (s : String) : String := String.mk (s.data.map lowerChar)

/-- Whitespace recognized by `str.strip` (ASCII whitespace). -/
def isSpaceChar (c : Char) : Bool :=
  c == ' ' || c == '\t' || c == '\n' || c == '\r' ||
  c == Char.ofNat 11 || c == Char.ofNat 12

/-- Model of `str.strip()`. -/
def strTrim (s : String) : String :=
  String.mk (((s.data.dropWhile isSpaceChar).reverse.dropWhile isSpaceChar).reverse)

/-- `isPre pat l` is true iff `pat` is a prefix of `l`. -/
def isPre : List Char → List Char → Bool
  | [], _ => true
  | _ :: _, [] => false
  | a :: as, b :: bs => a == b && isPre as bs

/-- `subList pat l` is true iff `pat` occurs contiguously in `l`
(model of Python's `pat in s`). -/
def subList (pat : List Char) : List Char → Bool
  | [] => pat.isEmpty
  | c :: rest => isPre pat (c :: rest) || subList pat rest

/-- Model of Python `pat in s` for strings. -/
def strContains (s pat : String) : Bool := subList pat.data s.data

/-- Model of Python `c in s` for a single character. -/
def strContainsChar (s : String) (c : Char) : Bool := s.data.contains c

/-- Model of `str.startswith`. -/
def strStartsWith (s pat : String) : Bool := isPre pat.data s.data

/-- Model of Python `len` on a string (number of characters). -/
def strLen (s : String) : Nat := s.data.length

/-- Accumulator-style splitter for `str.split('\n')`. -/
def splitLinesAux (acc : List Char) : List Char → List (List Char)
  | [] => [acc.reverse]
  | c :: rest =>
    if c == '\n' then acc.reverse :: splitLinesAux [] rest
    else splitLinesAux (c :: acc) rest

/-- Model of `code.split('\n')`. -/
def splitLines (s : String) : List String := (splitLinesAux [] s.data).map String.mk

/-- Characters of a list strictly before the first occurrence of `c`
(model of `s.split(c)[0]` for a one-character separator). -/
def takeBeforeChar (c : Char) : List Char → List Char
  | [] => []
  | d :: rest => if d == c then [] else d :: takeBeforeChar c rest

/-- Everything after the first occurrence of the pattern `p0 :: ps`
(used to model `s.split(sep)[1]`). -/
def afterSub (p0 : Char) (ps : List Char) : List Char → List Char
  | [] => []
  | c :: rest => if isPre (p0 :: ps) (c :: rest) then rest.drop ps.length else afterSub p0 ps rest

/-- Characters strictly before the first occurrence of the pattern `p0 :: ps`. -/
def takeBeforeSub (p0 : Char) (ps : List Char) : List Char → List Char
  | [] => []
  | c :: rest => if isPre (p0 :: ps) (c :: rest) then [] else c :: takeBeforeSub p0 ps rest

/-- Replace every (non-overlapping, leftmost-first) occurrence of the
pattern `p0 :: ps` by `rep` (model of `str.replace`).  The `fuel`
argument makes the recursion structural; each step consumes at least one
character, so any `fuel ≥` the list length computes the replacement. -/
def replaceSubAux (p0 : Char) (ps rep : List Char) : Nat → List Char → List Char
  | _, [] => []
  | 0, l => l
  | fuel + 1, c :: rest =>
    if isPre (p0 :: ps) (c :: rest) then rep ++ replaceSubAux p0 ps rep fuel (rest.drop ps.length)
    else c :: replaceSubAux p0 ps rep fuel rest

/-! ## Data model (`Issue` dicts and `CodeUnit`s)

An issue is a Python dict; the fields written by this code base are
modelled as structure fields, with `Option` for fields that a given
producer may leave absent (`dict.get` with a default models the reads). -/

structure Issue where
  type : Option String
  severity : Option String
  title : String
  description : String
  line : Nat
  suggestion : String
  file_path : Option String
  source : Option String
  enhanced_suggestion : Option String
deriving DecidableEq

/-- One analyzable file as produced by `github_parser.extract_code_files`. -/
structure CodeUnit where
  path : String
  content : String
  language : String
  size : Nat
deriving DecidableEq

/-- A single quote character, used inside issue descriptions. -/
def sq : String := String.mk [Char.ofNat 39]

/-! ## `code_analyzer.py` — `TreeSitterAnalyzer._basic_code_analysis`

Only the `functions` part of the structural summary is consumed by the
checks (`_check_code_quality` and `_check_maintainability`); the
`classes` / `imports` / `complexity` entries are computed by the source
but never read by any check, so they are not modelled.  The Tree-sitter
code path degrades to this basic analysis (`analyze_code_structure`
catches the parse failure of a `Parser` with no language set), and the
AST-based extractors return empty lists anyway. -/

structure FuncInfo where
  name : String
  line : Nat
deriving DecidableEq

/-- `line.split('(')[0].replace('def ', '')` on the stripped line. -/
def pyFuncName (t : String) : String :=
  String.mk
    (replaceSubAux 'd' "ef ".data [] (takeBeforeChar '(' t.data).length
      (takeBeforeChar '(' t.data))

/-- `line.split('function ')[1].split('(')[0]` on the stripped line. -/
def jsFuncName (t : String) : String :=
  String.mk (takeBeforeChar '('
    (takeBeforeSub 'f' "unction ".data (afterSub 'f' "unction ".data t.data)))

/-- The per-line scan of `_basic_code_analysis` collecting function infos
(1-based line numbers, as `i + 1` in the source). -/
def basicFunctionsAux (lang : String) (i : Nat) : List String → List FuncInfo
  | [] => []
  | l :: rest =>
    (if lang == "python" then
      (if strStartsWith (strTrim l) "def " then [⟨pyFuncName (strTrim l), i + 1⟩] else [])
     else if lang == "javascript" then
      (if strContains (strTrim l) "function " then [⟨jsFuncName (strTrim l), i + 1⟩] else [])
     else []) ++ basicFunctionsAux lang (i + 1) rest

/-- The `functions` entry of `_basic_code_analysis(code, language)`. -/
def basicFunctions (code lang : String) : List FuncInfo :=
  basicFunctionsAux lang 0 (splitLines code)

/-! ## `code_analyzer.py` — `StaticAnalyzer` checks -/

/-- The issue appended by the long-function branch of `_check_code_quality`. -/
def mkLongFunctionIssue (name : String) (funcLines ln : Nat) : Issue :=
  ⟨some "code_quality", some "MEDIUM", "Long Function",
   "Function " ++ sq ++ name ++ sq ++ " is too long (" ++ toString funcLines ++ " lines)",
   ln, "Consider breaking this function into smaller, more focused functions",
   none, none, none⟩

/-- The issue appended by the long-line branch of `_check_code_quality`. -/
def mkLongLineIssue (idx1 len : Nat) : Issue :=
  ⟨some "code_quality", some "LOW", "Long Line",
   "Line " ++ toString idx1 ++ " exceeds 120 characters (" ++ toString len ++ " characters)",
   idx1, "Break long lines into multiple lines for better readability",
   none, none, none⟩

/-- The loop `for func in structure.get('functions', [])` of
`_check_code_quality`: the function length estimate is the constant
`func_lines = 20`, compared against `> 50`, exactly as in the source. -/
def longFunctionScan : List FuncInfo → List Issue
  | [] => []
  | f :: rest =>
    (if 20 > 50 then [mkLongFunctionIssue f.name 20 f.line] else []) ++ longFunctionScan rest

/-- The loop `for i, line in enumerate(lines)` of `_check_code_quality`. -/
def longLineScan (i : Nat) : List String → List Issue
  | [] => []
  | l :: rest =>
    (if strLen l > 120 then [mkLongLineIssue (i + 1) (strLen l)] else []) ++
      longLineScan (i + 1) rest

/-- `StaticAnalyzer._check_code_quality`. -/
def check_code_quality (code : String) (fns : List FuncInfo) : List Issue :=
  longFunctionScan fns ++ longLineScan 0 (splitLines code)

/-- The hardcoded-secret keyword list of `_check_security_issues`. -/
def secret_patterns : List String := ["password", "api_key", "secret", "token"]

/-- The issue appended by the hardcoded-secret branch. -/
def mkSecretIssue (idx1 : Nat) : Issue :=
  ⟨some "security", some "HIGH", "Potential Hardcoded Secret",
   "Line " ++ toString idx1 ++ " may contain a hardcoded secret",
   idx1, "Use environment variables or secure configuration for secrets",
   none, none, none⟩

/-- `pattern in line_lower and '=' in line and ('"' in line or "'" in line)`. -/
def secretCond (l p : String) : Bool :=
  strContains (strLower l) p && strContainsChar l '=' &&
    (strContainsChar l '"' || strContainsChar l '\'')

/-- The outer secret loop of `_check_security_issues`: per line, one issue
is appended for each matching pattern. -/
def secretScan (i : Nat) : List String → List Issue
  | [] => []
  | l :: rest =>
    (secret_patterns.filter (fun p => secretCond l p)).map (fun _ => mkSecretIssue (i + 1)) ++
      secretScan (i + 1) rest

/-- The issue appended by the `eval(` branch. -/
def mkEvalIssue (idx1 : Nat) : Issue :=
  ⟨some "security", some "CRITICAL", "Dangerous eval() Usage",
   "Line " ++ toString idx1 ++ " uses eval() which can execute arbitrary code",
   idx1, "Avoid eval(). Use safer alternatives like ast.literal_eval() for simple cases",
   none, none, none⟩

/-- The python-only `eval(` loop of `_check_security_issues`. -/
def evalScan (i : Nat) : List String → List Issue
  | [] => []
  | l :: rest =>
    (if strContains l "eval(" then [mkEvalIssue (i + 1)] else []) ++ evalScan (i + 1) rest

/-- `StaticAnalyzer._check_security_issues`. -/
def check_security_issues (code lang : String) : List Issue :=
  secretScan 0 (splitLines code) ++
    (if lang == "python" then evalScan 0 (splitLines code) else [])

/-- The issue appended by the inefficient-loop branch. -/
def mkLoopIssue (idx1 : Nat) : Issue :=
  ⟨some "performance", some "MEDIUM", "Inefficient Loop",
   "Line " ++ toString idx1 ++ " uses range(len()) pattern",
   idx1, "Use enumerate() or iterate directly over the collection",
   none, none, none⟩

/-- The python-only loop of `_check_performance_issues`. -/
def loopScan (i : Nat) : List String → List Issue
  | [] => []
  | l :: rest =>
    (if strContains l "for" && strContains l "range(len(" then [mkLoopIssue (i + 1)] else []) ++
      loopScan (i + 1) rest

/-- `StaticAnalyzer._check_performance_issues`. -/
def check_performance_issues (code lang : String) : List Issue :=
  if lang == "python" then loopScan 0 (splitLines code) else []

/-- The issue appended by `_check_maintainability` for every discovered
function (the docstring is never actually checked, per the source). -/
def mkMissingDocIssue (name : String) (ln : Nat) : Issue :=
  ⟨some "maintainability", some "LOW", "Missing Documentation",
   "Function " ++ sq ++ name ++ sq ++ " lacks documentation",
   ln, "Add docstring to explain function purpose, parameters, and return value",
   none, none, none⟩

/-- The python-only loop of `_check_maintainability`. -/
def docScan : List FuncInfo → List Issue
  | [] => []
  | f :: rest => mkMissingDocIssue f.name f.line :: docScan rest

/-- `StaticAnalyzer._check_maintainability`. -/
def check_maintainability (lang : String) (fns : List FuncInfo) : List Issue :=
  if lang == "python" then docScan fns else []

/-- `issue['file_path'] = file_path`, applied to every issue at the end of
`analyze_file`. -/
def stampPath (p : String) (is : Issue) : Issue := { is with file_path := some p }

/-- `StaticAnalyzer.analyze_file`. -/
def analyze_file (content lang path : String) : List Issue :=
  (check_code_quality content (basicFunctions content lang) ++
   check_security_issues content lang ++
   check_performance_issues content lang ++
   check_maintainability lang (basicFunctions content lang)).map (stampPath path)

/-! ## List helper lemmas -/

theorem filterAllFalse {α : Type} {p : α → Bool} :
    ∀ l : List α, (∀ x ∈ l, p x = false) → l.filter p = [] := by
  intro l h
  induction l with
  | nil => rfl
  | cons a rest ih =>
    have ha := h a (List.mem_cons_self a rest)
    have hrest := ih (fun x hx => h x (List.mem_cons_of_mem a hx))
    simp [List.filter, ha, hrest]

theorem filterAllTrue {α : Type} {p : α → Bool} :
    ∀ l : List α, (∀ x ∈ l, p x = true) → l.filter p = l := by
  intro l h
  induction l with
  | nil => rfl
  | cons a rest ih =>
    have ha := h a (List.mem_cons_self a rest)
    have hrest := ih (fun x hx => h x (List.mem_cons_of_mem a hx))
    simp [List.filter, ha, hrest]

theorem filter_map_stamp (p : Issue → Bool) (path : String)
    (hp : ∀ is, p (stampPath path is) = p is) :
    ∀ l : List Issue, (l.map (stampPath path)).filter p = (l.filter p).map (stampPath path) := by
  intro l
  induction l with
  | nil => rfl
  | cons a rest ih =>
    simp only [List.map_cons, List.filter, hp a]
    cases h : p a <;> simp [ih]

/-! ## Titles produced by each static check family -/

theorem longFunctionScan_eq_nil : ∀ fns, longFunctionScan fns = [] := by
  intro fns
  induction fns with
  | nil => rfl
  | cons f rest ih => simp [longFunctionScan, ih]

theorem mem_longLineScan {is : Issue} :
    ∀ ls i, is ∈ longLineScan i ls → is.title = "Long Line" := by
  intro ls
  induction ls with
  | nil => intro i h; simp [longLineScan] at h
  | cons l rest ih =>
    intro i h
    simp only [longLineScan, List.mem_append] at h
    rcases h with h1 | h2
    · by_cases hc : strLen l > 120
      · simp [hc] at h1; subst h1; rfl
      · simp [hc] at h1
    · exact ih (i + 1) h2

theorem mem_secretScan {is : Issue} :
    ∀ ls i, is ∈ secretScan i ls → is.title = "Potential Hardcoded Secret" ∧ i < is.line := by
  intro ls
  induction ls with
  | nil => intro i h; simp [secretScan] at h
  | cons l rest ih =>
    intro i h
    simp only [secretScan, List.mem_append] at h
    rcases h with h1 | h2
    · rcases List.mem_map.mp h1 with ⟨p, _, hp⟩
      subst hp
      exact ⟨rfl, Nat.lt_succ_self i⟩
    · rcases ih (i + 1) h2 with ⟨ht, hl⟩
      exact ⟨ht, Nat.lt_of_succ_lt hl⟩

theorem mem_evalScan {is : Issue} :
    ∀ ls i, is ∈ evalScan i ls → is.title = "Dangerous eval() Usage" := by
  intro ls
  induction ls with
  | nil => intro i h; simp [evalScan] at h
  | cons l rest ih =>
    intro i h
    simp only [evalScan, List.mem_append] at h
    rcases h with h1 | h2
    · by_cases hc : strContains l "eval("
      · simp [hc] at h1; subst h1; rfl
      · simp [hc] at h1
    · exact ih (i + 1) h2

theorem mem_loopScan {is : Issue} :
    ∀ ls i, is ∈ loopScan i ls → is.title = "Inefficient Loop" := by
  intro ls
  induction ls with
  | nil => intro i h; simp [loopScan] at h
  | cons l rest ih =>
    intro i h
    simp only [loopScan, List.mem_append] at h
    rcases h with h1 | h2
    · by_cases hc : strContains l "for" && strContains l "range(len("
      · simp [hc] at h1; subst h1; rfl
      · simp [hc] at h1
    · exact ih (i + 1) h2

theorem mem_docScan {is : Issue} :
    ∀ fns, is ∈ docScan fns → is.title = "Missing Documentation" := by
  intro fns
  induction fns with
  | nil => intro h; simp [docScan] at h
  | cons f rest ih =>
    intro h
    simp only [docScan, List.mem_cons] at h
    rcases h with h1 | h2
    · subst h1; rfl
    · exact ih h2

/-! ## The long-line sub-scan isolated by a title-and-line filter -/

theorem longLineScan_filter_low {n : Nat} :
    ∀ ls i, n ≤ i →
      (longLineScan i ls).filter (fun is => is.title == "Long Line" && is.line == n) = [] := by
  intro ls
  induction ls with
  | nil => intro i _; rfl
  | cons l rest ih =>
    intro i hni
    simp only [longLineScan, List.filter_append]
    have h2 := ih (i + 1) (Nat.le_succ_of_le hni)
    rw [h2]
    have h1 : ((if strLen l > 120 then [mkLongLineIssue (i + 1) (strLen l)] else []).filter
        (fun is => is.title == "Long Line" && is.line == n)) = [] := by
      by_cases hc : strLen l > 120
      · have hne : ((i + 1 : Nat) == n) = false := by
          simp [Nat.ne_of_gt (Nat.lt_succ_of_le hni)]
        simp [hc, mkLongLineIssue, hne]
      · simp [hc]
    rw [h1]
    rfl

theorem longLineScan_filter_at :
    ∀ ls i k, (longLineScan i ls).filter
        (fun is => is.title == "Long Line" && is.line == i + k + 1)
      = (if strLen (ls.getD k "") > 120
         then [mkLongLineIssue (i + k + 1) (strLen (ls.getD k ""))] else []) := by
  intro ls
  induction ls with
  | nil =>
    intro i k
    simp [longLineScan, List.getD, strLen]
  | cons l rest ih =>
    intro i k
    simp only [longLineScan, List.filter_append]
    cases k with
    | zero =>
      have h2 : (longLineScan (i + 1) rest).filter
          (fun is => is.title == "Long Line" && is.line == i + 0 + 1) = [] :=
        longLineScan_filter_low rest (i + 1) (by omega)
      rw [h2]
      by_cases hc : strLen l > 120
      · simp [hc, mkLongLineIssue, List.getD]
      · simp [hc, List.getD]
    | succ k' =>
      have harith : i + (k' + 1) + 1 = (i + 1) + k' + 1 := by omega
      have h2 := ih (i + 1) k'
      have h1 : ((if strLen l > 120 then [mkLongLineIssue (i + 1) (strLen l)] else []).filter
          (fun is => is.title == "Long Line" && is.line == i + (k' + 1) + 1)) = [] := by
        by_cases hc : strLen l > 120
        · have hne : ((i + 1 : Nat) == i + (k' + 1) + 1) = false := by
            simp [Nat.ne_of_lt (by omega : i + 1 < i + (k' + 1) + 1)]
          simp [hc, mkLongLineIssue, hne]
        · simp [hc]
      rw [h1, harith, h2]
      simp [List.getD]

/-! ## The secret sub-scan isolated by a title-and-line filter -/

theorem secretScan_filter_low {n : Nat} :
    ∀ ls i, n ≤ i →
      (secretScan i ls).filter
        (fun is => is.title == "Potential Hardcoded Secret" && is.line == n) = [] := by
  intro ls
  induction ls with
  | nil => intro i _; rfl
  | cons l rest ih =>
    intro i hni
    simp only [secretScan, List.filter_append]
    rw [ih (i + 1) (Nat.le_succ_of_le hni)]
    have h1 : (((secret_patterns.filter (fun p => secretCond l p)).map
          (fun _ => mkSecretIssue (i + 1))).filter
        (fun is => is.title == "Potential Hardcoded Secret" && is.line == n)) = [] := by
      apply filterAllFalse
      intro x hx
      rcases List.mem_map.mp hx with ⟨p, _, hp⟩
      subst hp
      have hne : ((i + 1 : Nat) == n) = false := by
        simp [Nat.ne_of_gt (Nat.lt_succ_of_le hni)]
      simp [mkSecretIssue, hne]
    rw [h1]
    rfl

theorem secretScan_filter_at :
    ∀ ls i k, (secretScan i ls).filter
        (fun is => is.title == "Potential Hardcoded Secret" && is.line == i + k + 1)
      = (secret_patterns.filter (fun p => secretCond (ls.getD k "") p)).map
          (fun _ => mkSecretIssue (i + k + 1)) := by
  intro ls
  induction ls with
  | nil =>
    intro i k
    have hempty : secret_patterns.filter (fun p => secretCond "" p) = [] := by decide
    simp [secretScan, List.getD, hempty]
  | cons l rest ih =>
    intro i k
    simp only [secretScan, List.filter_append]
    cases k with
    | zero =>
      have h2 : (secretScan (i + 1) rest).filter
          (fun is => is.title == "Potential Hardcoded Secret" && is.line == i + 0 + 1) = [] :=
        secretScan_filter_low rest (i + 1) (by omega)
      rw [h2]
      have h1 : (((secret_patterns.filter (fun p => secretCond l p)).map
            (fun _ => mkSecretIssue (i + 1))).filter
          (fun is => is.title == "Potential Hardcoded Secret" && is.line == i + 0 + 1))
          = (secret_patterns.filter (fun p => secretCond l p)).map
              (fun _ => mkSecretIssue (i + 1)) := by
        apply filterAllTrue
        intro x hx
        rcases List.mem_map.mp hx with ⟨p, _, hp⟩
        subst hp
        simp [mkSecretIssue]
      rw [h1]
      simp [List.getD]
    | succ k' =>
      have harith : i + (k' + 1) + 1 = (i + 1) + k' + 1 := by omega
      have h1 : (((secret_patterns.filter (fun p => secretCond l p)).map
            (fun _ => mkSecretIssue (i + 1))).filter
          (fun is => is.title == "Potential Hardcoded Secret" && is.line == i + (k' + 1) + 1))
          = [] := by
        apply filterAllFalse
        intro x hx
        rcases List.mem_map.mp hx with ⟨p, _, hp⟩
        subst hp
        have hne : ((i + 1 : Nat) == i + (k' + 1) + 1) = false := by
          simp [Nat.ne_of_lt (by omega : i + 1 < i + (k' + 1) + 1)]
        simp [mkSecretIssue, hne]
      rw [h1, harith, ih (i + 1) k']
      simp [List.getD]

theorem check_security_filter_ll (code lang : String) (n : Nat) :
    (check_security_issues code lang).filter
      (fun is => is.title == "Long Line" && is.line == n) = [] := by
  apply filterAllFalse
  intro x hx
  simp only [check_security_issues, List.mem_append] at hx
  have hb : ("Potential Hardcoded Secret" == "Long Line") = false := by decide
  have hb2 : ("Dangerous eval() Usage" == "Long Line") = false := by decide
  rcases hx with h | h
  · have ht := (mem_secretScan _ 0 h).1
    simp [ht, hb]
  · cases hp : (lang == "python") with
    | true =>
      rw [hp] at h
      simp only [if_true] at h
      have ht := mem_evalScan _ 0 h
      simp [ht, hb2]
    | false =>
      rw [hp] at h
      simp at h

theorem check_performance_filter_ll (code lang : String) (n : Nat) :
    (check_performance_issues code lang).filter
      (fun is => is.title == "Long Line" && is.line == n) = [] := by
  apply filterAllFalse
  intro x hx
  have hb : ("Inefficient Loop" == "Long Line") = false := by decide
  simp only [check_performance_issues] at hx
  cases hp : (lang == "python") with
  | true =>
    rw [hp] at hx
    simp only [if_true] at hx
    have ht := mem_loopScan _ 0 hx
    simp [ht, hb]
  | false =>
    rw [hp] at hx
    simp at hx

theorem check_maintainability_filter_ll (lang : String) (fns : List FuncInfo) (n : Nat) :
    (check_maintainability lang fns).filter
      (fun is => is.title == "Long Line" && is.line == n) = [] := by
  apply filterAllFalse
  intro x hx
  have hb : ("Missing Documentation" == "Long Line") = false := by decide
  simp only [check_maintainability] at hx
  cases hp : (lang == "python") with
  | true =>
    rw [hp] at hx
    simp only [if_true] at hx
    have ht := mem_docScan _ hx
    simp [ht, hb]
  | false =>
    rw [hp] at hx
    simp at hx

/-- A file whose third line is 130 characters long (for the C7 scenario). -/
def sampleLongLineFile : String := "short\nalso short\n" ++ String.mk (List.replicate 130 'a')

set_option maxRecDepth 10000 in
/-- C7: static detection (`StaticAnalyzer.analyze_file`) emits one
"Long Line" Issue of severity LOW (the issue value `mkLongLineIssue`,
whose severity field is `LOW`) per physical line whose length exceeds 120
characters, with the issue's `line` field the line's 1-based index; and
the concrete scenario: a file whose line 3 is 130 characters long yields
the "Long Line" issue with `line = 3`. -/
theorem C7_long_line_rule (content lang path : String) (k : Nat) :
    ((analyze_file content lang path).filter
        (fun is => is.title == "Long Line" && is.line == k + 1)
      = (if strLen ((splitLines content).getD k "") > 120
         then [stampPath path (mkLongLineIssue (k + 1) (strLen ((splitLines content).getD k "")))]
         else []))
  ∧ (analyze_file sampleLongLineFile "python" "f.py").filter
        (fun is => is.title == "Long Line" && is.line == 3)
      = [stampPath "f.py" (mkLongLineIssue 3 130)] := by
  constructor
  · rw [analyze_file,
      filter_map_stamp (fun is => is.title == "Long Line" && is.line == k + 1) path
        (fun is => rfl)]
    simp only [List.filter_append, check_code_quality, longFunctionScan_eq_nil,
      List.nil_append, check_security_filter_ll, check_performance_filter_ll,
      check_maintainability_filter_ll, List.append_nil]
    have hmain := longLineScan_filter_at (splitLines content) 0 k
    simp only [Nat.zero_add] at hmain
    rw [hmain, apply_ite (List.map (stampPath path))]
    simp
  · decide

/-- C9: the issue sequence returned by `StaticAnalyzer.analyze_file`
never contains an issue titled "Long Function": the quality check
estimates every function's length as the constant 20 against a threshold
of 50, so the rule cannot fire. -/
theorem C9_no_long_function (content lang path : String) :
    (analyze_file content lang path).countP (fun is => is.title == "Long Function") = 0 := by
  have hnil : (analyze_file content lang path).filter
      (fun is => is.title == "Long Function") = [] := by
    apply filterAllFalse
    intro x hx
    simp only [analyze_file, List.mem_map] at hx
    rcases hx with ⟨y, hy, hst⟩
    have htitle : (stampPath path y).title = y.title := rfl
    simp only [List.mem_append] at hy
    have hLL : ("Long Line" == "Long Function") = false := by decide
    have hPH : ("Potential Hardcoded Secret" == "Long Function") = false := by decide
    have hEV : ("Dangerous eval() Usage" == "Long Function") = false := by decide
    have hIL : ("Inefficient Loop" == "Long Function") = false := by decide
    have hMD : ("Missing Documentation" == "Long Function") = false := by decide
    rcases hy with ((hq | hs) | hp) | hm
    · simp only [check_code_quality, longFunctionScan_eq_nil, List.nil_append] at hq
      have := mem_longLineScan _ 0 hq
      subst hst
      simp [htitle, this, hLL]
    · simp only [check_security_issues, List.mem_append] at hs
      subst hst
      rcases hs with h | h
      · have := (mem_secretScan _ 0 h).1
        simp [htitle, this, hPH]
      · cases hpy : (lang == "python") with
        | true =>
          rw [hpy] at h
          simp only [if_true] at h
          have := mem_evalScan _ 0 h
          simp [htitle, this, hEV]
        | false =>
          rw [hpy] at h
          simp at h
    · simp only [check_performance_issues] at hp
      subst hst
      cases hpy : (lang == "python") with
      | true =>
        rw [hpy] at hp
        simp only [if_true] at hp
        have := mem_loopScan _ 0 hp
        simp [htitle, this, hIL]
      | false =>
        rw [hpy] at hp
        simp at hp
    · simp only [check_maintainability] at hm
      subst hst
      cases hpy : (lang == "python") with
      | true =>
        rw [hpy] at hm
        simp only [if_true] at hm
        have := mem_docScan _ hm
        simp [htitle, this, hMD]
      | false =>
        rw [hpy] at hm
        simp at hm
  rw [List.countP_eq_length_filter, hnil]
  rfl

/-- C10: for every line, `StaticAnalyzer._check_security_issues` emits
one "Potential Hardcoded Secret" issue per keyword of the secret-pattern
set that matches that line (case-insensitively, together with an `=` and
a quote character), all carrying that line's 1-based index — one issue
per matching keyword, not one per offending line. -/
theorem C10_secret_per_keyword (code lang : String) (k : Nat) :
    (check_security_issues code lang).filter
        (fun is => is.title == "Potential Hardcoded Secret" && is.line == k + 1)
      = (secret_patterns.filter (fun p => secretCond ((splitLines code).getD k "") p)).map
          (fun _ => mkSecretIssue (k + 1)) := by
  simp only [check_security_issues, List.filter_append]
  have heval : ((if lang == "python" then evalScan 0 (splitLines code) else []).filter
      (fun is => is.title == "Potential Hardcoded Secret" && is.line == k + 1)) = [] := by
    apply filterAllFalse
    intro x hx
    have hb : ("Dangerous eval() Usage" == "Potential Hardcoded Secret") = false := by decide
    cases hpy : (lang == "python") with
    | true =>
      rw [hpy] at hx
      simp only [if_true] at hx
      have := mem_evalScan _ 0 hx
      simp [this, hb]
    | false =>
      rw [hpy] at hx
      simp at hx
  rw [heval]
  have hmain := secretScan_filter_at (splitLines code) 0 k
  simp only [Nat.zero_add] at hmain
  rw [hmain]
  simp

/-! ## `pipeline.py` — `_generate_final_report` and `_generate_recommendations`

The severity tally iterates `issue.get('severity', 'MEDIUM')` over fixed
dict keys, incrementing only when the value is one of the keys; for a
fixed key that is the same as counting the issues whose (defaulted)
severity equals the key, which is how each counter is written below.
The dynamic `type_counts` dict is modelled as an insertion-ordered
association list. -/

/-- `issue.get('severity', 'MEDIUM')`. -/
def severityOf (is : Issue) : String := is.severity.getD "MEDIUM"

/-- `issue.get('type', 'unknown')`. -/
def typeOf (is : Issue) : String := is.type.getD "unknown"

/-- The fixed-key severity dict of `_generate_final_report`. -/
structure SevCounts where
  CRITICAL : Nat
  HIGH : Nat
  MEDIUM : Nat
  LOW : Nat
  INFO : Nat
deriving DecidableEq

/-- The severity tally loop of `_generate_final_report`. -/
def sev_counts (all : List Issue) : SevCounts :=
  ⟨all.countP (fun is => severityOf is == "CRITICAL"),
   all.countP (fun is => severityOf is == "HIGH"),
   all.countP (fun is => severityOf is == "MEDIUM"),
   all.countP (fun is => severityOf is == "LOW"),
   all.countP (fun is => severityOf is == "INFO")⟩

/-- Sum of the five severity-breakdown counters. -/
def sumSev (sc : SevCounts) : Nat := sc.CRITICAL + sc.HIGH + sc.MEDIUM + sc.LOW + sc.INFO

/-- `type_counts[t] = type_counts.get(t, 0) + 1` on an insertion-ordered dict. -/
def bumpKey : List (String × Nat) → String → List (String × Nat)
  | [], k => [(k, 1)]
  | (k0, n) :: rest, k => if k0 == k then (k0, n + 1) :: rest else (k0, n) :: bumpKey rest k

/-- The type tally loop of `_generate_final_report` / `_generate_recommendations`. -/
def type_counts (all : List Issue) : List (String × Nat) :=
  all.foldl (fun m is => bumpKey m (typeOf is)) []

/-- `dict.get(k, 0)` on the association-list dict. -/
def lookupCount : List (String × Nat) → String → Nat
  | [], _ => 0
  | (k0, n) :: rest, k => if k0 == k then n else lookupCount rest k

/-- `penalty_score = critical*10 + high*5 + medium*2 + low*1`. -/
def penalty_score (sc : SevCounts) : Nat :=
  sc.CRITICAL * 10 + sc.HIGH * 5 + sc.MEDIUM * 2 + sc.LOW * 1

/-- The base-score computation of `_generate_final_report`, over exact
rationals in place of Python floats. -/
def base_score (pen total nfiles : Nat) : ℚ :=
  if nfiles > 0 then max 0 (100 - ((pen : ℚ) / (nfiles : ℚ) * 10))
  else if total = 0 then 100 else 50

/-- Round-half-to-even to an integer (the rounding mode of Python's
`round`), over exact rationals. -/
def roundHalfEven (q : ℚ) : ℤ :=
  if q - (⌊q⌋ : ℚ) < 1 / 2 then ⌊q⌋
  else if (1 : ℚ) / 2 < q - (⌊q⌋ : ℚ) then ⌊q⌋ + 1
  else if ⌊q⌋ % 2 = 0 then ⌊q⌋ else ⌊q⌋ + 1

/-- `round(x, 1)`. -/
def pyRound1 (q : ℚ) : ℚ := ((roundHalfEven (q * 10) : ℤ) : ℚ) / 10

/-- The `summary` sub-dict of the final report. -/
structure Summary where
  total_issues : Nat
  files_analyzed : Nat
  overall_score : ℚ
  severity_breakdown : SevCounts
  issue_types : List (String × Nat)
deriving DecidableEq

/-- The `analysis_metadata` sub-dict; the timestamp is supplied by the
caller, modelling the impure `datetime.now()` read. -/
structure AnalysisMeta where
  static_analysis_issues : Nat
  ai_analysis_issues : Nat
  timestamp : String
deriving DecidableEq

/-- The final report dict of `_generate_final_report`; the repository
metadata dict is passed through untouched and modelled as an
association list. -/
structure Report where
  repository : List (String × String)
  summary : Summary
  issues : List Issue
  recommendations : List String
  analysis_metadata : AnalysisMeta
deriving DecidableEq

def recCritical : String := "🚨 Address critical security and logic issues immediately"

def recHigh : String := "⚠️ High number of high-severity issues detected - consider code review"

def recSecurity : String := "🔒 Implement security best practices and input validation"

def recPerformance : String := "⚡ Optimize performance bottlenecks for better efficiency"

def recMaintainability : String := "📚 Improve code documentation and maintainability"

def recLooksGood : String :=
  "✅ Code quality looks good! Consider regular analysis for continuous improvement"

/-- `IssueAnalyzerPipeline._generate_recommendations`: five trigger
rules evaluated in a fixed order, then the fallback when none fired.
The severity dict here has only the four penalised keys; its CRITICAL
and HIGH counters are written as the equivalent `countP`. -/
def generate_recommendations (issues : List Issue) : List String :=
  let tc := type_counts issues
  let recs :=
    (if issues.countP (fun is => severityOf is == "CRITICAL") > 0 then [recCritical] else []) ++
    (if issues.countP (fun is => severityOf is == "HIGH") > 3 then [recHigh] else []) ++
    (if lookupCount tc "security" > 0 then [recSecurity] else []) ++
    (if lookupCount tc "performance" > 2 then [recPerformance] else []) ++
    (if lookupCount tc "maintainability" > 5 then [recMaintainability] else [])
  if recs = [] then [recLooksGood] else recs

/-- `IssueAnalyzerPipeline._generate_final_report` (the report value it
stores into the state; `ts` models the `datetime.now().isoformat()` read). -/
def generate_final_report (static_issues ai_issues : List Issue) (code_files : List CodeUnit)
    (repo_info : List (String × String)) (ts : String) : Report :=
  let all_issues := static_issues ++ ai_issues
  let sc := sev_counts all_issues
  { repository := repo_info
    summary :=
      { total_issues := all_issues.length
        files_analyzed := code_files.length
        overall_score := pyRound1 (base_score (penalty_score sc) all_issues.length code_files.length)
        severity_breakdown := sc
        issue_types := type_counts all_issues }
    issues := all_issues
    recommendations := generate_recommendations all_issues
    analysis_metadata :=
      { static_analysis_issues := static_issues.length
        ai_analysis_issues := ai_issues.length
        timestamp := ts } }

/-! ## Tally lemmas for the report synthesizer -/

theorem lookup_bumpKey (m : List (String × Nat)) (k0 k : String) :
    lookupCount (bumpKey m k0) k = lookupCount m k + (if k0 == k then 1 else 0) := by
  induction m with
  | nil => simp [bumpKey, lookupCount]
  | cons a rest ih =>
    obtain ⟨a1, a2⟩ := a
    by_cases ha : a1 = k0
    · subst ha
      by_cases hk : a1 = k
      · subst hk
        simp [bumpKey, lookupCount]
      · have hbk : (a1 == k) = false := by simp [hk]
        simp [bumpKey, lookupCount, hbk]
    · have hba : (a1 == k0) = false := by simp [ha]
      by_cases hk : a1 = k
      · subst hk
        have hk0 : (k0 == a1) = false := by
          simp only [beq_eq_false_iff_ne, ne_eq]
          exact fun h => ha h.symm
        simp [bumpKey, lookupCount, hba, hk0]
      · have hbk : (a1 == k) = false := by simp [hk]
        simp [bumpKey, lookupCount, hba, hbk, ih]

theorem lookup_foldl_bump (l : List Issue) :
    ∀ (m : List (String × Nat)) (k : String),
      lookupCount (l.foldl (fun m is => bumpKey m (typeOf is)) m) k
        = lookupCount m k + l.countP (fun is => typeOf is == k) := by
  induction l with
  | nil => intro m k; simp
  | cons x rest ih =>
    intro m k
    simp only [List.foldl_cons, List.countP_cons]
    rw [ih (bumpKey m (typeOf x)) k, lookup_bumpKey]
    omega

theorem lookup_type_counts (l : List Issue) (k : String) :
    lookupCount (type_counts l) k = l.countP (fun is => typeOf is == k) := by
  have h := lookup_foldl_bump l [] k
  simpa [type_counts, lookupCount, List.find?] using h

/-- A severity string recognized by the fixed-key severity dict. -/
def recognizedSeverity (v : String) : Bool :=
  v == "CRITICAL" || v == "HIGH" || v == "MEDIUM" || v == "LOW" || v == "INFO"

theorem sevIndicator (v : String) :
    ((if v == "CRITICAL" then 1 else 0) + (if v == "HIGH" then 1 else 0) +
     (if v == "MEDIUM" then 1 else 0) + (if v == "LOW" then 1 else 0) +
     (if v == "INFO" then 1 else 0) : Nat)
      = if recognizedSeverity v then 1 else 0 := by
  by_cases h1 : v = "CRITICAL"
  · subst h1; decide
  by_cases h2 : v = "HIGH"
  · subst h2; decide
  by_cases h3 : v = "MEDIUM"
  · subst h3; decide
  by_cases h4 : v = "LOW"
  · subst h4; decide
  by_cases h5 : v = "INFO"
  · subst h5; decide
  simp [recognizedSeverity, h1, h2, h3, h4, h5]

theorem sum_sev_counts (l : List Issue) :
    sumSev (sev_counts l) = l.countP (fun is => recognizedSeverity (severityOf is)) := by
  induction l with
  | nil => rfl
  | cons x rest ih =>
    simp only [sumSev, sev_counts, List.countP_cons] at *
    have hx := sevIndicator (severityOf x)
    omega

/-! ## C1, C2, C6 -/

/-- A CRITICAL issue and a code unit for the C1 scenario. -/
def critIssue : Issue :=
  ⟨some "security", some "CRITICAL", "Crit", "", 1, "", none, none, none⟩

def sampleUnit : CodeUnit := ⟨"main.py", "", "python", 0⟩

/-- C1: the synthesized overall score is exactly `round1` of the spec
formula — penalty `10·#CRITICAL + 5·#HIGH + 2·#MEDIUM + 1·#LOW` (INFO
contributes nothing), `max(0, 100 − penalty/#codeUnits·10)` when there is
at least one code unit, else `100`/`50` by emptiness of the combined
issue list; and the scenario: 1 code unit with exactly 2 CRITICAL issues
scores 0. -/
theorem C1_overall_score (s a : List Issue) (c : List CodeUnit)
    (ri : List (String × String)) (ts : String) :
    ((generate_final_report s a c ri ts).summary.overall_score
      = pyRound1
          (if c.length > 0 then
            max 0 (100 -
              (10 * ((s ++ a).countP (fun is => severityOf is == "CRITICAL") : ℚ) +
               5 * ((s ++ a).countP (fun is => severityOf is == "HIGH") : ℚ) +
               2 * ((s ++ a).countP (fun is => severityOf is == "MEDIUM") : ℚ) +
               1 * ((s ++ a).countP (fun is => severityOf is == "LOW") : ℚ)) /
                (c.length : ℚ) * 10)
           else if (s ++ a).length = 0 then 100 else 50))
  ∧ (generate_final_report [critIssue, critIssue] [] [sampleUnit] [] "").summary.overall_score
      = 0 := by
  constructor
  · have h0 : (generate_final_report s a c ri ts).summary.overall_score
        = pyRound1 (base_score (penalty_score (sev_counts (s ++ a)))
            (s ++ a).length c.length) := rfl
    have hpen : ((penalty_score (sev_counts (s ++ a)) : ℕ) : ℚ)
        = 10 * ((s ++ a).countP (fun is => severityOf is == "CRITICAL") : ℚ) +
          5 * ((s ++ a).countP (fun is => severityOf is == "HIGH") : ℚ) +
          2 * ((s ++ a).countP (fun is => severityOf is == "MEDIUM") : ℚ) +
          1 * ((s ++ a).countP (fun is => severityOf is == "LOW") : ℚ) := by
      simp only [penalty_score, sev_counts]
      push_cast
      ring
    rw [h0]
    simp only [base_score, hpen]
  · have h0 : (generate_final_report [critIssue, critIssue] [] [sampleUnit] [] "").summary.overall_score
        = pyRound1 (base_score (penalty_score (sev_counts ([critIssue, critIssue] ++ [])))
            ([critIssue, critIssue] ++ ([] : List Issue)).length 1) := rfl
    have hpen : penalty_score (sev_counts ([critIssue, critIssue] ++ [])) = 20 := by decide
    have hb : base_score 20 2 1 = 0 := by
      simp only [base_score]
      norm_num
    rw [h0, hpen]
    norm_num [hb, pyRound1, roundHalfEven]

/-- A single issue carrying an unrecognized severity string. -/
def weirdIssue : Issue :=
  ⟨some "security", some "WEIRD", "Weird", "", 1, "", none, none, none⟩

/-- C2 counterexample: an issue whose `severity` is the unrecognized
string `"WEIRD"` is not counted in any severity bucket (it is not mapped
to MEDIUM), so the breakdown sums to 0 while `total_issues` is 1 —
refuting the claim that the breakdown always sums to the total and that
unrecognized severity strings count as MEDIUM. -/
theorem C2_counterexample :
    sumSev (generate_final_report [weirdIssue] [] [] [] "").summary.severity_breakdown = 0
  ∧ (generate_final_report [weirdIssue] [] [] [] "").summary.total_issues = 1
  ∧ sumSev (generate_final_report [weirdIssue] [] [] [] "").summary.severity_breakdown
      ≠ (generate_final_report [weirdIssue] [] [] [] "").summary.total_issues := by
  refine ⟨by decide, by decide, by decide⟩

/-- C2 (amended): the five severity-breakdown counters sum to the number
of issues whose severity — with an absent field defaulting to MEDIUM —
is one of the five recognized levels; hence the sum never exceeds
`total_issues`, with equality exactly when every severity is recognized.
An issue carrying an unrecognized severity string is dropped from the
breakdown, not counted as MEDIUM. -/
theorem C2_breakdown_sum (s a : List Issue) (c : List CodeUnit)
    (ri : List (String × String)) (ts : String) :
    (sumSev (generate_final_report s a c ri ts).summary.severity_breakdown
      = (s ++ a).countP (fun is => recognizedSeverity (severityOf is)))
  ∧ sumSev (generate_final_report s a c ri ts).summary.severity_breakdown
      ≤ (generate_final_report s a c ri ts).summary.total_issues := by
  have h1 : (generate_final_report s a c ri ts).summary.severity_breakdown
      = sev_counts (s ++ a) := rfl
  have h2 : (generate_final_report s a c ri ts).summary.total_issues
      = (s ++ a).length := rfl
  rw [h1, h2, sum_sev_counts]
  exact ⟨rfl, List.countP_le_length _⟩

/-- C6: the recommendations are produced by the five trigger rules in
their fixed order — CRITICAL count > 0, HIGH count > 3, security
category count > 0, performance category count > 2, maintainability
category count > 5 — appending each rule's string iff its trigger holds,
with exactly one fallback recommendation when no rule triggers (in
particular on the empty issue list). -/
theorem C6_recommendation_rules (issues : List Issue) :
    (generate_recommendations issues =
      (let trig :=
        (if issues.countP (fun is => severityOf is == "CRITICAL") > 0
         then [recCritical] else []) ++
        (if issues.countP (fun is => severityOf is == "HIGH") > 3
         then [recHigh] else []) ++
        (if issues.countP (fun is => typeOf is == "security") > 0
         then [recSecurity] else []) ++
        (if issues.countP (fun is => typeOf is == "performance") > 2
         then [recPerformance] else []) ++
        (if issues.countP (fun is => typeOf is == "maintainability") > 5
         then [recMaintainability] else []);
      if trig = [] then [recLooksGood] else trig))
  ∧ generate_recommendations [] = [recLooksGood] := by
  constructor
  · simp only [generate_recommendations, lookup_type_counts]
  · rfl

/-! ## `gemini_analyzer.py` — `GeminiAnalyzer`

The AI backends (Gemini CLI subprocess, Gemini API call) and the JSON
decoding of a backend response are I/O collaborators; they are modelled
as oracle functions bundled in `GeminiEnv`.  Everything deterministic in
the class — the fallback analyzer, the text-response parsing, the
runtime-issue extraction, the enhancement bookkeeping — is embedded
faithfully.  `Except.error` models a raised exception (or, for the CLI,
a failed invocation already converted to `""` by `_analyze_with_cli`). -/

structure GeminiEnv where
  /-- `self.use_cli` after `__init__` (true only when the CLI was chosen
  and found available). -/
  useCli : Bool
  /-- `_analyze_with_cli` on the logic-analysis prompt built from
  `(code, language, file_path)`; returns `""` on any CLI failure,
  as the source converts errors to the empty string. -/
  cliResp : String → String → String → String
  /-- `self.model is not None`. -/
  modelAvail : Bool
  /-- `model.generate_content` on the logic-analysis prompt;
  `Except.error` models a raised exception. -/
  apiResp : String → String → String → Except String String
  /-- The JSON extraction of `_parse_gemini_response`: brace-slicing plus
  `json.loads` plus `parsed.get('issues', [])`; `none` models any parse
  failure (no brace found or `JSONDecodeError`). -/
  jsonIssues : String → Option (List Issue)
  /-- `model.generate_content` on the simulation prompt built from
  `(code, language)`. -/
  simResp : String → String → Except String String
  /-- `model.generate_content` on the enhancement prompt built from the
  file path and the file's issues. -/
  enhResp : String → List Issue → Except String String

/-- A line that `_parse_text_response` treats as an issue indicator. -/
def textIndicator (l : String) : Bool :=
  strContains (strLower l) "issue:" || strContains (strLower l) "problem:" ||
  strContains (strLower l) "bug:" || strContains (strLower l) "error:"

/-- The issue dict built by `_parse_text_response` from a stripped line. -/
def mkTextIssue (l path : String) : Issue :=
  ⟨some "logic_error", some "MEDIUM", l, l, 1,
   "Review and fix the identified issue", some path, some "gemini", none⟩

/-- The loop of `_parse_text_response`, with the pending `current_issue`. -/
def parse_text_response_aux (path : String) (pending : Option Issue) :
    List String → List Issue
  | [] => match pending with | some is => [is] | none => []
  | l :: rest =>
    if strTrim l == "" then parse_text_response_aux path pending rest
    else if textIndicator (strTrim l) then
      (match pending with | some is => [is] | none => []) ++
        parse_text_response_aux path (some (mkTextIssue (strTrim l) path)) rest
    else parse_text_response_aux path pending rest

/-- `GeminiAnalyzer._parse_text_response`. -/
def parse_text_response (t path : String) : List Issue :=
  parse_text_response_aux path none (splitLines t)

/-- `GeminiAnalyzer._parse_gemini_response`: on a successful JSON
extraction every issue gets `file_path` and `source = 'gemini'` stamped;
otherwise the text parse runs. -/
def parse_gemini_response (jsonO : String → Option (List Issue)) (t path : String) :
    List Issue :=
  match jsonO t with
  | some issues => issues.map (fun is => { is with file_path := some path, source := some "gemini" })
  | none => parse_text_response t path

/-- The issue appended by the bare-except branch of `_fallback_logic_analysis`. -/
def mkBareExceptIssue (idx1 : Nat) (path : String) : Issue :=
  ⟨some "logic_error", some "MEDIUM", "Bare Except Clause",
   "Bare except clause catches all exceptions", idx1,
   "Specify the exception type or use Exception", some path, some "fallback", none⟩

/-- The issue appended by the division branch of `_fallback_logic_analysis`. -/
def mkDivZeroIssue (idx1 : Nat) (path : String) : Issue :=
  ⟨some "logic_error", some "HIGH", "Potential Division by Zero",
   "Division operation without zero check", idx1,
   "Add validation to ensure divisor is not zero", some path, some "fallback", none⟩

/-- The per-line loop of `_fallback_logic_analysis` (python-only checks). -/
def fallbackScan (lang path : String) (i : Nat) : List String → List Issue
  | [] => []
  | l :: rest =>
    (if lang == "python" then
      (if strTrim l == "except:" then [mkBareExceptIssue (i + 1) path] else []) ++
      (if strContains (strTrim l) "/" && !strContains (strTrim l) "if"
       then [mkDivZeroIssue (i + 1) path] else [])
     else []) ++ fallbackScan lang path (i + 1) rest

/-- `GeminiAnalyzer._fallback_logic_analysis`. -/
def fallback_logic_analysis (code lang path : String) : List Issue :=
  fallbackScan lang path 0 (splitLines code)

/-- `GeminiAnalyzer.analyze_code_logic` with its CLI / API / fallback
cascade. -/
def analyze_code_logic (env : GeminiEnv) (code lang path : String) : List Issue :=
  if env.useCli then
    if env.cliResp code lang path != "" then
      parse_gemini_response env.jsonIssues (env.cliResp code lang path) path
    else fallback_logic_analysis code lang path
  else if !env.modelAvail then fallback_logic_analysis code lang path
  else
    match env.apiResp code lang path with
    | Except.ok t => parse_gemini_response env.jsonIssues t path
    | Except.error _ => fallback_logic_analysis code lang path

/-- The keyword list of `_extract_runtime_issues`. -/
def runtimeKeyword (l : String) : Bool :=
  strContains (strLower l) "exception" || strContains (strLower l) "error" ||
  strContains (strLower l) "crash" || strContains (strLower l) "fail" ||
  strContains (strLower l) "issue" || strContains (strLower l) "problem"

/-- `GeminiAnalyzer._extract_runtime_issues`. -/
def extract_runtime_issues (t : String) : List String :=
  ((splitLines t).filter runtimeKeyword).map strTrim

/-- The dict returned by `simulate_code_execution`; the
`potential_runtime_issues` key is absent (`none`) on the no-model and
exception paths. -/
structure SimResult where
  simulation_results : String
  potential_runtime_issues : Option (List String)
deriving DecidableEq

/-- `GeminiAnalyzer.simulate_code_execution`. -/
def simulate_code_execution (env : GeminiEnv) (code lang : String) : SimResult :=
  if !env.modelAvail then ⟨"Gemini not available for simulation", none⟩
  else
    match env.simResp code lang with
    | Except.ok t => ⟨t, some (extract_runtime_issues t)⟩
    | Except.error e => ⟨"Simulation failed: " ++ e, none⟩

/-- The issue dict built in `_run_ai_analysis` from one simulation text
issue (pipeline.py lines 152-161): note `line = 1` and
`source = 'gemini_simulation'`. -/
def mkRuntimeIssue (txt path : String) : Issue :=
  ⟨some "runtime_risk", some "MEDIUM", "Potential Runtime Issue", txt, 1,
   "Review code for runtime safety", some path, some "gemini_simulation", none⟩

/-- The simulation part of `_run_ai_analysis` for one code unit: the
simulation runs only when `len(content) < 5000`, and each entry of
`simulation.get('potential_runtime_issues', [])` becomes one issue. -/
def simIssuesForFile (env : GeminiEnv) (f : CodeUnit) : List Issue :=
  if strLen f.content < 5000 then
    ((simulate_code_execution env f.content f.language).potential_runtime_issues.getD []).map
      (fun t => mkRuntimeIssue t f.path)
  else []

/-- The per-file loop of `_run_ai_analysis` (logic issues then
simulation issues, concatenated over the files). -/
def aiIssuesScan (env : GeminiEnv) : List CodeUnit → List Issue
  | [] => []
  | f :: rest =>
    (analyze_code_logic env f.content f.language f.path ++ simIssuesForFile env f) ++
      aiIssuesScan env rest

/-- `all_ai_issues` as accumulated by `_run_ai_analysis` over
`code_files[:10]`. -/
def run_ai_issues (env : GeminiEnv) (code_files : List CodeUnit) : List Issue :=
  aiIssuesScan env (code_files.take 10)

/-! ### `generate_improvement_suggestions` -/

/-- An issue with its enrichment field cleared (for stating which fields
enhancement may touch). -/
def stripEnh (is : Issue) : Issue := { is with enhanced_suggestion := none }

/-- `issue.get('file_path', 'unknown')`. -/
def fpOf (is : Issue) : String := is.file_path.getD "unknown"

/-- First-occurrence-ordered distinct keys (the insertion order of the
`files_issues` dict). -/
def uniqKeys : List String → List String
  | [] => []
  | k :: ks => k :: (uniqKeys ks).filter (fun k2 => !(k2 == k))

/-- The enhancement loop of `_enhance_suggestions_for_file`: issue `i`
gets `enhanced_suggestion = suggestions[i].strip()` when that index
exists and strips to a non-empty string. -/
def enhLoop (sugg : List String) (i : Nat) : List Issue → List Issue
  | [] => []
  | is :: rest =>
    (if i < sugg.length && !(strTrim (sugg.getD i "") == "") then
      { is with enhanced_suggestion := some (strTrim (sugg.getD i "")) }
     else is) :: enhLoop sugg (i + 1) rest

/-- `GeminiAnalyzer._enhance_suggestions_for_file`: on a backend
exception the group is returned unchanged. -/
def enhance_suggestions_for_file (env : GeminiEnv) (issues : List Issue) (fp : String) :
    List Issue :=
  match env.enhResp fp issues with
  | Except.error _ => issues
  | Except.ok t => enhLoop (splitLines t) 0 issues

/-- The per-file loop of `generate_improvement_suggestions` over the
ordered keys of the `files_issues` dict; each group is the sub-list of
issues with that file path, in input order. -/
def groupsScan (env : GeminiEnv) (all : List Issue) : List String → List Issue
  | [] => []
  | fp :: rest =>
    enhance_suggestions_for_file env (all.filter (fun is => fpOf is == fp)) fp ++
      groupsScan env all rest

/-- `GeminiAnalyzer.generate_improvement_suggestions`. -/
def generate_improvement_suggestions (env : GeminiEnv) (issues : List Issue) : List Issue :=
  if !env.modelAvail || issues.isEmpty then issues
  else groupsScan env issues (uniqKeys (issues.map fpOf))

/-! ## C3: enhancement preserves the issues up to regrouping -/

/-- The issues regrouped by file path (proof-side companion of
`groupsScan` with the enhancement step removed). -/
def gatherScan (all : List Issue) : List String → List Issue
  | [] => []
  | fp :: rest => all.filter (fun is => fpOf is == fp) ++ gatherScan all rest

theorem enhLoop_strip (sugg : List String) :
    ∀ (l : List Issue) (i : Nat), (enhLoop sugg i l).map stripEnh = l.map stripEnh := by
  intro l
  induction l with
  | nil => intro i; rfl
  | cons is rest ih =>
    intro i
    simp only [enhLoop, List.map_cons, ih (i + 1)]
    congr 1
    split
    · rfl
    · rfl

theorem enhance_strip (env : GeminiEnv) (l : List Issue) (fp : String) :
    (enhance_suggestions_for_file env l fp).map stripEnh = l.map stripEnh := by
  simp only [enhance_suggestions_for_file]
  cases env.enhResp fp l with
  | error e => rfl
  | ok t => exact enhLoop_strip (splitLines t) l 0

theorem groupsScan_strip (env : GeminiEnv) (all : List Issue) :
    ∀ K : List String, (groupsScan env all K).map stripEnh = (gatherScan all K).map stripEnh := by
  intro K
  induction K with
  | nil => rfl
  | cons fp rest ih =>
    simp only [groupsScan, gatherScan, List.map_append, ih, enhance_strip]

theorem nodup_uniqKeys : ∀ m : List String, (uniqKeys m).Nodup := by
  intro m
  induction m with
  | nil => exact List.nodup_nil
  | cons k ks ih =>
    simp only [uniqKeys]
    refine List.Nodup.cons ?_ (List.Nodup.filter _ ih)
    intro hmem
    rcases List.mem_filter.mp hmem with ⟨_, hne⟩
    simp at hne

theorem mem_uniqKeys : ∀ (m : List String) (a : String), a ∈ m → a ∈ uniqKeys m := by
  intro m
  induction m with
  | nil => intro a h; simp at h
  | cons k ks ih =>
    intro a h
    rcases List.mem_cons.mp h with h1 | h2
    · subst h1; exact List.mem_cons_self a _
    · by_cases hak : a = k
      · subst hak; exact List.mem_cons_self a _
      · refine List.mem_cons_of_mem k (List.mem_filter.mpr ⟨ih a h2, ?_⟩)
        simp [hak]

theorem count_filter_fp (x : Issue) (all : List Issue) (fp : String) :
    List.count x (all.filter (fun is => fpOf is == fp))
      = if fpOf x == fp then List.count x all else 0 := by
  by_cases h : fpOf x = fp
  · have hb : (fpOf x == fp) = true := by simp [h]
    rw [hb, if_pos rfl]
    exact List.count_filter hb
  · have hb : (fpOf x == fp) = false := by simp [h]
    rw [hb]
    simp only [Bool.false_eq_true, if_false]
    rw [List.count_eq_zero]
    intro hmem
    rcases List.mem_filter.mp hmem with ⟨_, hpx⟩
    rw [hb] at hpx
    exact Bool.false_ne_true hpx

theorem gather_count_not (x : Issue) (all : List Issue) :
    ∀ K : List String, fpOf x ∉ K → List.count x (gatherScan all K) = 0 := by
  intro K
  induction K with
  | nil => intro _; rfl
  | cons fp rest ih =>
    intro hnot
    have h1 : ¬ fpOf x = fp := fun h => hnot (h ▸ List.mem_cons_self fp rest)
    have h2 : fpOf x ∉ rest := fun h => hnot (List.mem_cons_of_mem fp h)
    have hb : (fpOf x == fp) = false := by simp [h1]
    simp only [gatherScan, List.count_append, count_filter_fp, hb, ih h2]
    simp

theorem gather_count_mem (x : Issue) (all : List Issue) :
    ∀ K : List String, K.Nodup → fpOf x ∈ K →
      List.count x (gatherScan all K) = List.count x all := by
  intro K
  induction K with
  | nil => intro _ h; simp at h
  | cons fp rest ih =>
    intro hnd hmem
    rcases List.mem_cons.mp hmem with h1 | h2
    · have hb : (fpOf x == fp) = true := by simp [h1]
      have hrest : fpOf x ∉ rest := by
        rw [h1]; exact (List.nodup_cons.mp hnd).1
      simp only [gatherScan, List.count_append, count_filter_fp, hb, if_pos rfl,
        gather_count_not x all rest hrest]
      simp
    · have h1 : ¬ fpOf x = fp := by
        intro h
        exact (List.nodup_cons.mp hnd).1 (h ▸ h2)
      have hb : (fpOf x == fp) = false := by simp [h1]
      simp only [gatherScan, List.count_append, count_filter_fp, hb,
        ih (List.nodup_cons.mp hnd).2 h2]
      simp

theorem gather_perm (all : List Issue) :
    (gatherScan all (uniqKeys (all.map fpOf))).Perm all := by
  rw [List.perm_iff_count]
  intro x
  by_cases hx : fpOf x ∈ uniqKeys (all.map fpOf)
  · exact gather_count_mem x all _ (nodup_uniqKeys _) hx
  · have hnotall : x ∉ all := by
      intro hmem
      exact hx (mem_uniqKeys _ _ (List.mem_map_of_mem fpOf hmem))
    rw [gather_count_not x all _ hx, List.count_eq_zero.mpr hnotall]

/-- C3 (amended): `generate_improvement_suggestions` preserves the list
length and, modulo the `enhanced_suggestion` field it may set, the
multiset of issues — but it regroups them by file path (groups in
first-occurrence order), so the input order is preserved only when
issues of a file are already contiguous; it is the identity whenever the
AI backend is unavailable or the input list is empty. -/
theorem C3_enhancement_invariants :
    (∀ (env : GeminiEnv) (issues : List Issue),
      (generate_improvement_suggestions env issues).length = issues.length)
  ∧ (∀ (env : GeminiEnv) (issues : List Issue),
      ((generate_improvement_suggestions env issues).map stripEnh).Perm
        (issues.map stripEnh))
  ∧ (∀ (env : GeminiEnv) (issues : List Issue),
      generate_improvement_suggestions { env with modelAvail := false } issues = issues)
  ∧ (∀ env : GeminiEnv, generate_improvement_suggestions env [] = []) := by
  have hperm : ∀ (env : GeminiEnv) (issues : List Issue),
      ((generate_improvement_suggestions env issues).map stripEnh).Perm
        (issues.map stripEnh) := by
    intro env issues
    by_cases hc : !env.modelAvail || issues.isEmpty
    · simp [generate_improvement_suggestions, hc]
    · simp only [generate_improvement_suggestions, hc, Bool.false_eq_true, if_false]
      rw [groupsScan_strip]
      exact (gather_perm issues).map stripEnh
  refine ⟨?_, hperm, ?_, ?_⟩
  · intro env issues
    have h1 := (hperm env issues).length_eq
    simpa using h1
  · intro env issues
    simp [generate_improvement_suggestions]
  · intro env
    simp [generate_improvement_suggestions]

/-- An environment whose enhancement backend answers with an empty
response (so no `enhanced_suggestion` is attached). -/
def enhIdEnv : GeminiEnv :=
  ⟨false, fun _ _ _ => "", true, fun _ _ _ => Except.error "down", fun _ => none,
   fun _ _ => Except.error "down", fun _ _ => Except.ok ""⟩

def issA : Issue := ⟨none, none, "A", "", 1, "", some "f1", none, none⟩

def issB : Issue := ⟨none, none, "B", "", 1, "", some "f2", none, none⟩

def issC : Issue := ⟨none, none, "C", "", 1, "", some "f1", none, none⟩

/-- C3 counterexample: with an available backend and issues of two files
interleaved, `generate_improvement_suggestions` returns the issues
regrouped by file — `[A(f1), B(f2), C(f1)]` comes back as `[A, C, B]` —
so the output is not in the input order even though no field of any
issue changed, refuting the same-order part of the claim. -/
theorem C3_counterexample :
    generate_improvement_suggestions enhIdEnv [issA, issB, issC] = [issA, issC, issB]
  ∧ (generate_improvement_suggestions enhIdEnv [issA, issB, issC]).map Issue.title
      ≠ [issA, issB, issC].map Issue.title := by
  exact ⟨by decide, by decide⟩

/-! ## C4: the simulation-derived issues of `_run_ai_analysis` -/

/-- The simulation parts of the per-file AI loop, concatenated (the
claim-side description of which issues the simulation contributes). -/
def simOnlyScan (env : GeminiEnv) : List CodeUnit → List Issue
  | [] => []
  | f :: rest => simIssuesForFile env f ++ simOnlyScan env rest

theorem mem_fallbackScan_source {lang path : String} {is : Issue} :
    ∀ (ls : List String) (i : Nat), is ∈ fallbackScan lang path i ls →
      is.source = some "fallback" := by
  intro ls
  induction ls with
  | nil => intro i h; simp [fallbackScan] at h
  | cons l rest ih =>
    intro i h
    simp only [fallbackScan, List.mem_append] at h
    rcases h with h1 | h2
    · cases hp : (lang == "python") with
      | true =>
        rw [hp] at h1
        simp only [if_true, List.mem_append] at h1
        rcases h1 with ha | hb
        · by_cases hc : strTrim l == "except:"
          · simp [hc] at ha; subst ha; rfl
          · simp [hc] at ha
        · by_cases hc : strContains (strTrim l) "/" && !strContains (strTrim l) "if"
          · simp [hc] at hb; subst hb; rfl
          · simp [hc] at hb
      | false =>
        rw [hp] at h1
        simp at h1
    · exact ih (i + 1) h2

theorem mem_parse_text_aux_source {path : String} {is : Issue} :
    ∀ (ls : List String) (pending : Option Issue),
      (∀ y, pending = some y → y.source = some "gemini") →
      is ∈ parse_text_response_aux path pending ls → is.source = some "gemini" := by
  intro ls
  induction ls with
  | nil =>
    intro pending hp h
    cases pending with
    | none => simp [parse_text_response_aux] at h
    | some y =>
      simp only [parse_text_response_aux, List.mem_singleton] at h
      subst h
      exact hp is rfl
  | cons l rest ih =>
    intro pending hp h
    simp only [parse_text_response_aux] at h
    by_cases h1 : (strTrim l == "") = true
    · rw [if_pos h1] at h
      exact ih pending hp h
    · rw [if_neg h1] at h
      by_cases h2 : textIndicator (strTrim l) = true
      · rw [if_pos h2] at h
        rcases List.mem_append.mp h with ha | hb
        · cases pending with
          | none => simp at ha
          | some y =>
            simp only [List.mem_singleton] at ha
            subst ha
            exact hp is rfl
        · exact ih (some (mkTextIssue (strTrim l) path)) (by intro y hy; cases hy; rfl) hb
      · rw [if_neg h2] at h
        exact ih pending hp h

theorem source_parse_gemini {jsonO : String → Option (List Issue)} {t path : String}
    {is : Issue} (h : is ∈ parse_gemini_response jsonO t path) :
    is.source = some "gemini" := by
  simp only [parse_gemini_response] at h
  cases hj : jsonO t with
  | some l =>
    rw [hj] at h
    rcases List.mem_map.mp h with ⟨y, _, hy⟩
    subst hy
    rfl
  | none =>
    rw [hj] at h
    exact mem_parse_text_aux_source (splitLines t) none (by intro y hy; cases hy) h

theorem source_analyze_code_logic {env : GeminiEnv} {code lang path : String} {is : Issue}
    (h : is ∈ analyze_code_logic env code lang path) :
    is.source = some "gemini" ∨ is.source = some "fallback" := by
  simp only [analyze_code_logic] at h
  by_cases hcli : env.useCli = true
  · rw [if_pos hcli] at h
    by_cases hne : (env.cliResp code lang path != "") = true
    · rw [if_pos hne] at h
      exact Or.inl (source_parse_gemini h)
    · rw [if_neg hne] at h
      exact Or.inr (mem_fallbackScan_source (splitLines code) 0 h)
  · rw [if_neg hcli] at h
    by_cases hav : (!env.modelAvail) = true
    · rw [if_pos hav] at h
      exact Or.inr (mem_fallbackScan_source (splitLines code) 0 h)
    · rw [if_neg hav] at h
      cases happ : env.apiResp code lang path with
      | ok t =>
        rw [happ] at h
        exact Or.inl (source_parse_gemini h)
      | error e =>
        rw [happ] at h
        exact Or.inr (mem_fallbackScan_source (splitLines code) 0 h)

theorem aiScan_filter_sim (env : GeminiEnv) :
    ∀ fs : List CodeUnit,
      (aiIssuesScan env fs).filter (fun is => is.source == some "gemini_simulation")
        = simOnlyScan env fs := by
  intro fs
  induction fs with
  | nil => rfl
  | cons f rest ih =>
    simp only [aiIssuesScan, simOnlyScan, List.filter_append]
    have hlogic : (analyze_code_logic env f.content f.language f.path).filter
        (fun is => is.source == some "gemini_simulation") = [] := by
      apply filterAllFalse
      intro x hx
      rcases source_analyze_code_logic hx with hs | hs <;> simp [hs]
    have hsim : (simIssuesForFile env f).filter
        (fun is => is.source == some "gemini_simulation") = simIssuesForFile env f := by
      apply filterAllTrue
      intro x hx
      simp only [simIssuesForFile] at hx
      by_cases hc : strLen f.content < 5000
      · rw [if_pos hc] at hx
        rcases List.mem_map.mp hx with ⟨t, _, ht⟩
        subst ht
        rfl
      · rw [if_neg hc] at hx
        simp at hx
    rw [hlogic, hsim, ih]
    rfl

/-- C4 (amended): in `_run_ai_analysis`, the simulation-sourced issues of
the AI stage are exactly the per-file simulation conversions over the
analyzed prefix; the simulation contributes nothing for a code unit
whose content length is not below the 5000-character threshold; below
the threshold every entry of `potential_runtime_issues` becomes exactly
one issue; and each such issue has category `runtime_risk`, severity
`MEDIUM`, `line = 1` and `source = 'gemini_simulation'`. -/
theorem C4_simulation_issues (env : GeminiEnv) (files : List CodeUnit) :
    ((run_ai_issues env files).filter (fun is => is.source == some "gemini_simulation")
      = simOnlyScan env (files.take 10))
  ∧ (∀ f : CodeUnit, 5000 ≤ strLen f.content → simIssuesForFile env f = [])
  ∧ (∀ f : CodeUnit, strLen f.content < 5000 →
      simIssuesForFile env f
        = ((simulate_code_execution env f.content f.language).potential_runtime_issues.getD
            []).map (fun t => mkRuntimeIssue t f.path))
  ∧ (∀ t p : String, (mkRuntimeIssue t p).type = some "runtime_risk"
      ∧ (mkRuntimeIssue t p).severity = some "MEDIUM"
      ∧ (mkRuntimeIssue t p).line = 1
      ∧ (mkRuntimeIssue t p).source = some "gemini_simulation") := by
  refine ⟨aiScan_filter_sim env (files.take 10), ?_, ?_, ?_⟩
  · intro f hf
    have hc : ¬ strLen f.content < 5000 := by omega
    simp [simIssuesForFile, hc]
  · intro f hf
    simp [simIssuesForFile, hf]
  · intro t p
    exact ⟨rfl, rfl, rfl, rfl⟩

/-- A backend environment whose simulation response reports one runtime
issue line. -/
def simEnv0 : GeminiEnv :=
  ⟨false, fun _ _ _ => "", true, fun _ _ _ => Except.error "down", fun _ => none,
   fun _ _ => Except.ok "error: boom", fun _ _ => Except.error "down"⟩

def smallFile : CodeUnit := ⟨"a.py", "x", "python", 1⟩

def bigFile : CodeUnit := ⟨"big.py", String.mk (List.replicate 5000 'a'), "python", 5000⟩

/-- C4 counterexample: a concrete simulation text issue becomes an issue
with `line = 1` (not `0`) and `source = 'gemini_simulation'` (not
`'ai_simulation'`), refuting the claimed field values. -/
theorem C4_counterexample :
    simIssuesForFile simEnv0 smallFile = [mkRuntimeIssue "error: boom" "a.py"]
  ∧ (mkRuntimeIssue "error: boom" "a.py").line = 1
  ∧ (mkRuntimeIssue "error: boom" "a.py").line ≠ 0
  ∧ (mkRuntimeIssue "error: boom" "a.py").source = some "gemini_simulation"
  ∧ (mkRuntimeIssue "error: boom" "a.py").source ≠ some "ai_simulation" := by
  refine ⟨by decide, rfl, by decide, rfl, by decide⟩

theorem bigFile_len : strLen bigFile.content = 5000 := by
  have h : strLen bigFile.content = (List.replicate 5000 'a').length := rfl
  rw [h, List.length_replicate]

/-- Witness for C4: the hypotheses of `C4_simulation_issues` are
satisfiable — a 5000-character unit yields no simulation issues, and a
1-character unit yields the mapped conversion list. -/
theorem C4_simulation_issues_witness :
    simIssuesForFile simEnv0 bigFile = []
  ∧ simIssuesForFile simEnv0 smallFile
      = ((simulate_code_execution simEnv0 smallFile.content
            smallFile.language).potential_runtime_issues.getD []).map
          (fun t => mkRuntimeIssue t smallFile.path) := by
  constructor
  · exact (C4_simulation_issues simEnv0 []).2.1 bigFile (by rw [bigFile_len])
  · exact (C4_simulation_issues simEnv0 []).2.2.1 smallFile (by decide)

/-! ## `pipeline.py` — the orchestrator state machine and `analyze`

The two acquisition stages call network / filesystem collaborators
(`get_repository_info` + `parse_github_url`, and `clone_repository` +
`extract_code_files`); they are modelled as oracles returning either the
stage's data or a raised exception message.  The static, AI and report
stages are pure in this embedding (their bodies are total functions), so
their `try/except` wrappers can never fire; a stage that fails writes
its prefixed message into `state['error']` and the pipeline runs every
remaining stage regardless (the workflow has no short-circuit edge). -/

/-- `AnalysisState` of pipeline.py; `final_report` starts as the empty
dict, modelled by `emptyReport`. -/
structure AnalysisState where
  repo_url : String
  repo_info : List (String × String)
  code_files : List CodeUnit
  static_issues : List Issue
  ai_issues : List Issue
  final_report : Report
  error : String

/-- The initial `{}` placed in `final_report`. -/
def emptyReport : Report := ⟨[], ⟨0, 0, 0, ⟨0, 0, 0, 0, 0⟩, []⟩, [], [], ⟨0, 0, ""⟩⟩

/-- The oracles of one pipeline run. -/
structure PipelineEnv where
  /-- `get_repository_info` merged with `parse_github_url` on the run's
  URL; `Except.error` models a raised exception. -/
  parseResp : String → Except String (List (String × String))
  /-- `clone_repository` followed by `extract_code_files`; `Except.error`
  models a raised exception of either call. -/
  extractResp : String → Except String (List CodeUnit)
  gem : GeminiEnv
  ts : String

def initial_state (url : String) : AnalysisState :=
  ⟨url, [], [], [], [], emptyReport, ""⟩

/-- `_parse_repository`. -/
def parse_repository (env : PipelineEnv) (st : AnalysisState) : AnalysisState :=
  match env.parseResp st.repo_url with
  | Except.ok info => { st with repo_info := info }
  | Except.error e => { st with error := "Failed to parse repository: " ++ e }

/-- `_extract_code_files`. -/
def extract_files_stage (env : PipelineEnv) (st : AnalysisState) : AnalysisState :=
  match env.extractResp st.repo_url with
  | Except.ok files => { st with code_files := files }
  | Except.error e => { st with error := "Failed to extract code files: " ++ e }

/-- The per-file loop of `_run_static_analysis`. -/
def staticScan : List CodeUnit → List Issue
  | [] => []
  | f :: rest => analyze_file f.content f.language f.path ++ staticScan rest

/-- `_run_static_analysis`. -/
def run_static_analysis (st : AnalysisState) : AnalysisState :=
  { st with static_issues := staticScan st.code_files }

/-- `_run_ai_analysis`: logic + simulation issues over `code_files[:10]`,
then enhancement over the static+AI union, redistributed back by
positional slicing at the original static-issue count. -/
def run_ai_analysis_stage (gem : GeminiEnv) (st : AnalysisState) : AnalysisState :=
  { st with
    static_issues :=
      (generate_improvement_suggestions gem
        (st.static_issues ++ run_ai_issues gem st.code_files)).take st.static_issues.length
    ai_issues :=
      (generate_improvement_suggestions gem
        (st.static_issues ++ run_ai_issues gem st.code_files)).drop st.static_issues.length }

/-- `_generate_final_report` as a stage. -/
def generate_report_stage (env : PipelineEnv) (st : AnalysisState) : AnalysisState :=
  { st with
    final_report :=
      generate_final_report st.static_issues st.ai_issues st.code_files st.repo_info env.ts }

/-- `workflow.invoke`: the five stages in their linear graph order. -/
def workflow_invoke (env : PipelineEnv) (st : AnalysisState) : AnalysisState :=
  generate_report_stage env
    (run_ai_analysis_stage env.gem
      (run_static_analysis
        (extract_files_stage env
          (parse_repository env st))))

/-- The `{success, error, report}` result shape of `analyze`. -/
structure AnalyzeResult where
  success : Bool
  error : Option String
  report : Option Report

/-- `IssueAnalyzerPipeline.analyze`. -/
def analyze (env : PipelineEnv) (url : String) : AnalyzeResult :=
  if (workflow_invoke env (initial_state url)).error != "" then
    ⟨false, some (workflow_invoke env (initial_state url)).error, none⟩
  else ⟨true, none, some (workflow_invoke env (initial_state url)).final_report⟩

theorem str_append_ne_empty (s t : String) (h : s.data ≠ []) : s ++ t ≠ "" := by
  intro heq
  have hd := congrArg String.data heq
  rw [String.data_append] at hd
  exact h (List.append_eq_nil.mp hd).1

theorem workflow_error_eq (env : PipelineEnv) (url : String) :
    (workflow_invoke env (initial_state url)).error
      = (match env.extractResp url with
         | Except.error e => "Failed to extract code files: " ++ e
         | Except.ok _ =>
           match env.parseResp url with
           | Except.error e => "Failed to parse repository: " ++ e
           | Except.ok _ => "") := by
  cases hp : env.parseResp url with
  | ok info =>
    cases he : env.extractResp url with
    | ok files =>
      simp [workflow_invoke, generate_report_stage, run_ai_analysis_stage,
        run_static_analysis, extract_files_stage, parse_repository, initial_state, hp, he]
    | error e =>
      simp [workflow_invoke, generate_report_stage, run_ai_analysis_stage,
        run_static_analysis, extract_files_stage, parse_repository, initial_state, hp, he]
  | error e =>
    cases he : env.extractResp url with
    | ok files =>
      simp [workflow_invoke, generate_report_stage, run_ai_analysis_stage,
        run_static_analysis, extract_files_stage, parse_repository, initial_state, hp, he]
    | error e2 =>
      simp [workflow_invoke, generate_report_stage, run_ai_analysis_stage,
        run_static_analysis, extract_files_stage, parse_repository, initial_state, hp, he]

/-- C5: `analyze` exposes exactly two result shapes — a failure stage
(either acquisition oracle raising) leaves a non-empty prefixed message
in `RunState.error`, in which case the result is
`{success: false, error: that message, report: none}` with no partial
report exposed; when no stage records an error the result is
`{success: true, error: none, report: the synthesized report}`.  The
static, AI and report stages are total in this embedding, so only the
two acquisition oracles can record an error. -/
theorem C5_analyze_result (env : PipelineEnv) (url : String) :
    (analyze env url
      = if (workflow_invoke env (initial_state url)).error = "" then
          ⟨true, none, some (workflow_invoke env (initial_state url)).final_report⟩
        else ⟨false, some (workflow_invoke env (initial_state url)).error, none⟩)
  ∧ ((workflow_invoke env (initial_state url)).error ≠ ""
      ↔ (∃ e, env.parseResp url = Except.error e)
        ∨ (∃ e, env.extractResp url = Except.error e))
  ∧ (((analyze env url).success = true ∧ (analyze env url).error = none
        ∧ (analyze env url).report
            = some (workflow_invoke env (initial_state url)).final_report)
     ∨ ((analyze env url).success = false
        ∧ (∃ e, (analyze env url).error = some e ∧ e ≠ "")
        ∧ (analyze env url).report = none)) := by
  have hshape : analyze env url
      = if (workflow_invoke env (initial_state url)).error = "" then
          ⟨true, none, some (workflow_invoke env (initial_state url)).final_report⟩
        else ⟨false, some (workflow_invoke env (initial_state url)).error, none⟩ := by
    by_cases h : (workflow_invoke env (initial_state url)).error = ""
    · simp [analyze, h]
    · simp [analyze, h]
  refine ⟨hshape, ?_, ?_⟩
  · rw [workflow_error_eq]
    cases hp : env.parseResp url with
    | ok info =>
      cases he : env.extractResp url with
      | ok files => simp [hp, he]
      | error e =>
        simp only [hp, he]
        constructor
        · intro _; exact Or.inr ⟨e, rfl⟩
        · intro _; exact str_append_ne_empty _ _ (by decide)
    | error e =>
      cases he : env.extractResp url with
      | ok files =>
        simp only [hp, he]
        constructor
        · intro _; exact Or.inl ⟨e, rfl⟩
        · intro _; exact str_append_ne_empty _ _ (by decide)
      | error e2 =>
        simp only [hp, he]
        constructor
        · intro _; exact Or.inr ⟨e2, rfl⟩
        · intro _; exact str_append_ne_empty _ _ (by decide)
  · rw [hshape]
    by_cases h : (workflow_invoke env (initial_state url)).error = ""
    · rw [if_pos h]
      exact Or.inl ⟨rfl, rfl, rfl⟩
    · rw [if_neg h]
      exact Or.inr ⟨rfl, ⟨_, rfl, h⟩, rfl⟩

/-! ## `github_parser.py` — `extract_code_files`, with `config.py` caps

The cloned working tree is modelled as the list of its files in
`rglob('*')` order: repo-relative path components, the path suffix, the
on-disk byte size (`stat().st_size`), and the decoded text content —
`none` when the text read raises (`UnicodeDecodeError` /
`PermissionError`).  For UTF-8 text the decoded character count never
exceeds the byte count; theorems take that as an explicit hypothesis on
the entries. -/

structure FsEntry where
  parts : List String
  suffix : String
  st_size : Nat
  content : Option String

/-- `Config.SUPPORTED_EXTENSIONS`. -/
def SUPPORTED_EXTENSIONS : List (String × String) :=
  [(".py", "python"), (".js", "javascript"), (".ts", "typescript"), (".java", "java"),
   (".cpp", "cpp"), (".c", "c"), (".cs", "c_sharp"), (".go", "go"),
   (".rb", "ruby"), (".php", "php")]

/-- `Config.MAX_FILES_TO_ANALYZE`. -/
def MAX_FILES_TO_ANALYZE : Nat := 50

/-- `Config.MAX_FILE_SIZE` (1 MB). -/
def MAX_FILE_SIZE : Nat := 1024 * 1024

/-- Membership-plus-lookup in the extension map (the source checks
`suffix.lower() in SUPPORTED_EXTENSIONS` and then indexes it). -/
def lookupExt : List (String × String) → String → Option String
  | [], _ => none
  | (ext, lang) :: rest, suffix => if ext == suffix then some lang else lookupExt rest suffix

/-- `str(file_path.relative_to(repo_path))`. -/
def joinParts : List String → List Char
  | [] => []
  | [p] => p.data
  | p :: rest => p.data ++ '/' :: joinParts rest

def entryPath (e : FsEntry) : String := String.mk (joinParts e.parts)

/-- The `rglob` loop of `extract_code_files`: hidden components,
unsupported suffixes, oversized files and unreadable files are skipped;
after an append the loop breaks at the file cap. -/
def extract_code_files_aux : List FsEntry → List CodeUnit → List CodeUnit
  | [], acc => acc
  | e :: rest, acc =>
    if e.parts.any (fun part => strStartsWith part ".") then extract_code_files_aux rest acc
    else
      match lookupExt SUPPORTED_EXTENSIONS (strLower e.suffix) with
      | none => extract_code_files_aux rest acc
      | some lang =>
        if e.st_size > MAX_FILE_SIZE then extract_code_files_aux rest acc
        else
          match e.content with
          | none => extract_code_files_aux rest acc
          | some c =>
            if (acc ++ [CodeUnit.mk (entryPath e) c lang (strLen c)]).length
                ≥ MAX_FILES_TO_ANALYZE then
              acc ++ [CodeUnit.mk (entryPath e) c lang (strLen c)]
            else extract_code_files_aux rest (acc ++ [CodeUnit.mk (entryPath e) c lang (strLen c)])

/-- `GitHubParser.extract_code_files`. -/
def extract_code_files (entries : List FsEntry) : List CodeUnit :=
  extract_code_files_aux entries []

theorem extract_aux_bounds :
    ∀ (entries : List FsEntry) (acc : List CodeUnit),
      (∀ e ∈ entries, ∀ c, e.content = some c → strLen c ≤ e.st_size) →
      acc.length < MAX_FILES_TO_ANALYZE →
      (∀ u ∈ acc, u.size ≤ MAX_FILE_SIZE) →
      (extract_code_files_aux entries acc).length ≤ MAX_FILES_TO_ANALYZE
        ∧ ∀ u ∈ extract_code_files_aux entries acc, u.size ≤ MAX_FILE_SIZE := by
  intro entries
  induction entries with
  | nil =>
    intro acc _ hlen hsz
    exact ⟨Nat.le_of_lt hlen, hsz⟩
  | cons e rest ih =>
    intro acc hc hlen hsz
    have hcrest : ∀ e2 ∈ rest, ∀ c, e2.content = some c → strLen c ≤ e2.st_size :=
      fun e2 he2 => hc e2 (List.mem_cons_of_mem e he2)
    have hce : ∀ c, e.content = some c → strLen c ≤ e.st_size :=
      hc e (List.mem_cons_self e rest)
    simp only [extract_code_files_aux]
    by_cases h1 : e.parts.any (fun part => strStartsWith part ".") = true
    · rw [if_pos h1]
      exact ih acc hcrest hlen hsz
    · rw [if_neg h1]
      cases hl : lookupExt SUPPORTED_EXTENSIONS (strLower e.suffix) with
      | none =>
        dsimp only
        exact ih acc hcrest hlen hsz
      | some lang =>
        dsimp only
        by_cases h2 : e.st_size > MAX_FILE_SIZE
        · rw [if_pos h2]
          exact ih acc hcrest hlen hsz
        · rw [if_neg h2]
          cases hco : e.content with
          | none =>
            dsimp only
            exact ih acc hcrest hlen hsz
          | some c =>
            dsimp only
            have hu : (CodeUnit.mk (entryPath e) c lang (strLen c)).size ≤ MAX_FILE_SIZE := by
              have hb := hce c hco
              simp only [CodeUnit.size] at *
              omega
            have hsz2 : ∀ u ∈ acc ++ [CodeUnit.mk (entryPath e) c lang (strLen c)],
                u.size ≤ MAX_FILE_SIZE := by
              intro u hmem
              rcases List.mem_append.mp hmem with h | h
              · exact hsz u h
              · rw [List.mem_singleton.mp h]
                exact hu
            by_cases h3 : (acc ++ [CodeUnit.mk (entryPath e) c lang (strLen c)]).length
                ≥ MAX_FILES_TO_ANALYZE
            · rw [if_pos h3]
              refine ⟨?_, hsz2⟩
              rw [List.length_append]
              simp only [List.length_singleton]
              omega
            · rw [if_neg h3]
              exact ih (acc ++ [CodeUnit.mk (entryPath e) c lang (strLen c)]) hcrest
                (by omega) hsz2

/-- C8: extraction returns at most `MAX_FILES_TO_ANALYZE = 50` code
units, and — given that a decoded text's character count is bounded by
its on-disk byte size, as for UTF-8 — no returned unit's `size` exceeds
`MAX_FILE_SIZE = 1,048,576`; oversized and unreadable entries are
skipped by a total function, never fatal. -/
theorem C8_extraction_caps (entries : List FsEntry)
    (h : ∀ e ∈ entries, ∀ c, e.content = some c → strLen c ≤ e.st_size) :
    (extract_code_files entries).length ≤ MAX_FILES_TO_ANALYZE
      ∧ ∀ u ∈ extract_code_files entries, u.size ≤ MAX_FILE_SIZE := by
  exact extract_aux_bounds entries [] h (by decide) (by intro u hu; simp at hu)

def sampleEntry : FsEntry := ⟨["src", "main.py"], ".py", 10, some "x"⟩

/-- Witness for C8: the UTF-8 hypothesis is satisfiable on a concrete
one-file tree, and the caps hold there. -/
theorem C8_extraction_caps_witness :
    (extract_code_files [sampleEntry]).length ≤ MAX_FILES_TO_ANALYZE
      ∧ ∀ u ∈ extract_code_files [sampleEntry], u.size ≤ MAX_FILE_SIZE := by
  refine C8_extraction_caps [sampleEntry] ?_
  intro e he c hcon
  rw [List.mem_singleton.mp he] at hcon ⊢
  cases hcon
  decide

end IssueAnalyzer
